import Mathlib

/-!
Verification of the offer-processing core in `src/classes/Trades.ts`
(`tf2-automatic`).  The development shallowly embeds the class state
(`itemsInTrade`, `receivedOffers`, `processingOffer`), its queue
operations (`enqueueOffer`, `dequeueOffer`, `finishProcessingOffer`,
`processNextOffer`), the retrying fetch logic (`fetchOffer`), the
state-change reactor (`onOfferChanged`) and the per-offer metadata bag
(`offer.data`).  Asynchronous callback completions are modelled as a
small-step transition relation over the queue state, where each step is
one synchronous continuation of the single-threaded event loop.
-/

/-- Trade offer states, mirroring `TradeOfferManager.ETradeOfferState`. -/
inductive ETradeOfferState where
  | Invalid
  | Active
  | Accepted
  | Countered
  | Expired
  | Canceled
  | Declined
  | InvalidItems
  | CreatedNeedsConfirmation
  | CanceledBySecondFactor
  | InEscrow
deriving DecidableEq, Repr

/-- A trade offer as the `Trades` class reads it: id, state, whether the
offer was sent by us, and the asset ids of the items we would give away
(`itemsToGive`).  In the underlying library `EconItem.id` and
`EconItem.assetid` are aliases for the same asset id, so items are
modelled by that single string. -/
structure Offer where
  id : Nat
  state : ETradeOfferState
  isOurOffer : Bool
  itemsToGive : List String
deriving DecidableEq, Repr

/-- A pending asynchronous continuation of the queue layer: a fetch in
flight for an offer id (`fetchOffer` callback, `Trades.ts:184`), a
handler decision in flight (`onNewTradeOffer` callback,
`Trades.ts:134`), or an accept/decline action in flight
(`Trades.ts:154`). -/
inductive QTask where
  | fetching (id : Nat)
  | handling (offer : Offer)
  | acting (offer : Offer)
deriving DecidableEq, Repr

/-- The offer id a pending task is working on. -/
def QTask.offerId : QTask → Nat
  | .fetching id => id
  | .handling o => o.id
  | .acting o => o.id

/-- The mutable queue-related state of the `Trades` class:
`receivedOffers` and `processingOffer` are instance fields
(`Trades.ts:15-16`); `tasks` models the pending asynchronous callbacks
currently registered on the event loop. -/
structure QState where
  receivedOffers : List Nat
  processingOffer : Bool
  tasks : List QTask
deriving DecidableEq, Repr

/-- Initial state of a freshly constructed `Trades` instance. -/
def initQState : QState := { receivedOffers := [], processingOffer := false, tasks := [] }

/-- `processNextOffer` (`Trades.ts:173-203`): return if already
processing or the queue is empty; otherwise set the processing flag,
read the id at the front of the queue (leaving it in place) and start
`fetchOffer` for it.  The asynchronous continuation of the started fetch
is recorded as a `QTask.fetching` task. -/
def processNextOffer (s : QState) : QState :=
  if s.processingOffer = true ∨ s.receivedOffers = [] then s
  else { s with processingOffer := true,
                tasks := s.tasks ++ [QTask.fetching s.receivedOffers.headI] }

/-- `enqueueOffer` (`Trades.ts:105-117`): ignore an id already in the
queue; otherwise push it, and if the queue now holds exactly one entry,
set the processing flag and hand the notification's offer object
directly to `handlerProcessOffer` (a `QTask.handling` task); otherwise
call `processNextOffer`. -/
def enqueueOffer (s : QState) (offer : Offer) : QState :=
  if offer.id ∈ s.receivedOffers then s
  else if (s.receivedOffers ++ [offer.id]).length = 1 then
    { s with receivedOffers := s.receivedOffers ++ [offer.id],
             processingOffer := true,
             tasks := s.tasks ++ [QTask.handling offer] }
  else
    processNextOffer { s with receivedOffers := s.receivedOffers ++ [offer.id] }

/-- `dequeueOffer` (`Trades.ts:119-125`): remove the first occurrence of
the id from the queue (`indexOf` + `splice`). -/
def dequeueOffer (q : List Nat) (offerId : Nat) : List Nat :=
  q.erase offerId

/-- `finishProcessingOffer` (`Trades.ts:167-171`): dequeue the id, clear
the processing flag, and call `processNextOffer`. -/
def finishProcessingOffer (s : QState) (offerId : Nat) : QState :=
  processNextOffer
    { s with receivedOffers := dequeueOffer s.receivedOffers offerId, processingOffer := false }

/-- The error branch of the `fetchOffer` callback inside
`processNextOffer` (`Trades.ts:185-197`): when the fetch rejected after
exhausting its retries, push the id to the tail of the queue only when
the queue does not hold exactly one entry, then (since no offer was
obtained) run `finishProcessingOffer`. -/
def onFetchFailed (s : QState) (offerId : Nat) : QState :=
  if s.receivedOffers.length ≠ 1 then
    finishProcessingOffer { s with receivedOffers := s.receivedOffers ++ [offerId] } offerId
  else
    finishProcessingOffer s offerId

/-- One synchronous continuation of the event loop acting on the queue
state.  `enqueue` is an external notification (`onNewOffer` /
`onOfferList`).  The remaining constructors consume one pending task and
run the corresponding callback body from `Trades.ts`. -/
inductive QStep : QState → QState → Prop where
  | enqueue (s : QState) (offer : Offer) : QStep s (enqueueOffer s offer)
  | fetchFailed (s : QState) (id : Nat) (pre post : List QTask)
      (h : s.tasks = pre ++ QTask.fetching id :: post) :
      QStep s (onFetchFailed { s with tasks := pre ++ post } id)
  | fetchAbsent (s : QState) (id : Nat) (pre post : List QTask)
      (h : s.tasks = pre ++ QTask.fetching id :: post) :
      QStep s (finishProcessingOffer { s with tasks := pre ++ post } id)
  | fetchActive (s : QState) (id : Nat) (offer : Offer) (pre post : List QTask)
      (h : s.tasks = pre ++ QTask.fetching id :: post)
      (hid : offer.id = id) (hst : offer.state = ETradeOfferState.Active) :
      QStep s { s with tasks := (pre ++ post) ++ [QTask.handling offer] }
  | handlerDone (s : QState) (offer : Offer) (pre post : List QTask)
      (h : s.tasks = pre ++ QTask.handling offer :: post) :
      QStep s { s with tasks := (pre ++ post) ++ [QTask.acting offer] }
  | handlerFailed (s : QState) (offer : Offer) (pre post : List QTask)
      (h : s.tasks = pre ++ QTask.handling offer :: post) :
      QStep s { s with tasks := pre ++ post }
  | actionOk (s : QState) (offer : Offer) (pre post : List QTask)
      (h : s.tasks = pre ++ QTask.acting offer :: post) :
      QStep s (finishProcessingOffer { s with tasks := pre ++ post } offer.id)
  | actionFailed (s : QState) (offer : Offer) (pre post : List QTask)
      (h : s.tasks = pre ++ QTask.acting offer :: post) :
      QStep s { s with tasks := pre ++ post }

/-- States reachable from a freshly constructed `Trades` instance. -/
inductive QReachable : QState → Prop where
  | init : QReachable initQState
  | step {s s' : QState} (hs : QReachable s) (h : QStep s s') : QReachable s'

/-- Queue-layer invariant: the tasks list is empty whenever the
processing flag is clear, at most one task is ever pending, the flag
implies a non-empty queue, every pending task works on the id at the
front of the queue, and the queue never holds duplicate ids. -/
def QInv (s : QState) : Prop :=
  (s.processingOffer = false → s.tasks = []) ∧
  s.tasks.length ≤ 1 ∧
  (s.processingOffer = true → s.receivedOffers ≠ []) ∧
  (∀ t ∈ s.tasks, s.receivedOffers.head? = some t.offerId) ∧
  s.receivedOffers.Nodup

/-- Item reservation: `setItemInTrade` (`Trades.ts:401-407`), an
idempotent append. -/
def setItemInTrade (itemsInTrade : List String) (assetid : String) : List String :=
  if assetid ∈ itemsInTrade then itemsInTrade else itemsInTrade ++ [assetid]

/-- Item release: `unsetItemInTrade` (`Trades.ts:409-415`), removal of
the first occurrence (`indexOf` + `splice`). -/
def unsetItemInTrade (itemsInTrade : List String) (assetid : String) : List String :=
  itemsInTrade.erase assetid

/-- A value stored in the per-offer metadata bag (`offer.data`). -/
inductive DataVal where
  | num (n : Nat)
  | boolean (b : Bool)
  | str (s : String)
  | items (l : List String)
  | null
deriving DecidableEq, Repr

/-- The per-offer metadata bag, keyed by strings exactly as
`offer.data(key)` is. -/
def DataBag := List (String × DataVal)

instance : DecidableEq DataBag := by
  unfold DataBag
  infer_instance

/-- Read `offer.data(key)`; `none` models JavaScript `undefined` (key
never written). -/
def dataGet (d : DataBag) (k : String) : Option DataVal :=
  (d.find? (fun p => p.1 == k)).map (fun p => p.2)

/-- Write `offer.data(key, value)`; writing `none` models
`offer.data(key, undefined)`, which deletes the key. -/
def dataSet (d : DataBag) (k : String) (v : Option DataVal) : DataBag :=
  let removed := d.filter (fun p => !(p.1 == k))
  match v with
  | none => removed
  | some v => (k, v) :: removed

/-- The metadata stamp made by `handlerProcessOffer` before invoking the
handler (`Trades.ts:130-132`): `offer.data('handleTimestamp', start)`. -/
def handlerProcessOfferStamp (d : DataBag) (start : Nat) : DataBag :=
  dataSet d "handleTimestamp" (some (DataVal.num start))

/-- Externally visible events emitted by `onOfferChanged`, in program
order: an inventory-cache removal, the settling of the inventory
refresh, and the notification of the external handler. -/
inductive TEvent where
  | removeItem (assetid : String)
  | refreshSettled
  | notifyHandler
deriving DecidableEq, Repr

/-- Result of running `onOfferChanged`: the updated reservation list,
the updated metadata bag, the duration the reactor logged (`none` = no
duration log ran; `some none` = logged "unknown"; `some (some t)` =
logged `t` ms) and the emitted event trace. -/
structure ChangeResult where
  itemsInTrade : List String
  bag : DataBag
  loggedProcessTime : Option (Option Nat)
  events : List TEvent
deriving DecidableEq

/-- `onOfferChanged` (`Trades.ts:350-390`).  First branch: a state in
the active family re-reserves every given item and possibly snapshots
`_ourItems`; otherwise every given item is released, `_ourItems` is
cleared, a finish timestamp is stamped and the processing duration is
computed from the `'handleTimeStamp'` key (the source reads that exact
key; `NaN` arithmetic is modelled by `Option`).  Second branch: a state
that is neither `Accepted` nor `InEscrow` notifies the handler directly;
otherwise every given item is removed from the inventory cache, the
inventory refresh runs, and only its settling callback notifies the
handler. -/
def onOfferChanged (itemsInTrade : List String) (offer : Offer) (bag : DataBag) (now : Nat) :
    ChangeResult :=
  let core :=
    if offer.state = ETradeOfferState.Active ∨
        offer.state = ETradeOfferState.CreatedNeedsConfirmation then
      (offer.itemsToGive.foldl setItemInTrade itemsInTrade,
       (if offer.isOurOffer = true ∧ dataGet bag "_ourItems" = some DataVal.null then
          dataSet bag "_ourItems" (some (DataVal.items offer.itemsToGive))
        else bag),
       (none : Option (Option Nat)))
    else
      let bag2 :=
        dataSet (dataSet bag "_ourItems" none) "finishTimestamp" (some (DataVal.num now))
      (offer.itemsToGive.foldl unsetItemInTrade itemsInTrade,
       bag2,
       some (match dataGet bag2 "handleTimeStamp" with
             | some (DataVal.num t) => some (now - t)
             | _ => none))
  let events :=
    if offer.state ≠ ETradeOfferState.Accepted ∧ offer.state ≠ ETradeOfferState.InEscrow then
      [TEvent.notifyHandler]
    else
      offer.itemsToGive.map TEvent.removeItem ++ [TEvent.refreshSettled, TEvent.notifyHandler]
  { itemsInTrade := core.1, bag := core.2.1, loggedProcessTime := core.2.2, events := events }

/-- Errors the Gateway (`manager.getOffer`) can report, distinguished
exactly as `fetchOffer` distinguishes them: a "no matching offer"
message, a "Not Logged In" (session expired) message, or any other
transient error. -/
inductive GatewayErr where
  | noMatch
  | notLoggedIn
  | transient
deriving DecidableEq, Repr

/-- Outcome of one `manager.getOffer` call. -/
inductive GetOfferResult where
  | err (e : GatewayErr)
  | ok (state : ETradeOfferState)
deriving DecidableEq, Repr

/-- Modelled from the spec: `exponentialBackoff` is imported from
`src/lib/helpers`, which is not part of the given sources; §4.7 of the
spec describes it as `min(cap, base * 2^attempt)` with tunable base and
cap. -/
def exponentialBackoff (attempt : Nat) : Nat :=
  min 10000 (100 * 2 ^ attempt)

/-- What the `fetchOffer` callback decides to do next
(`Trades.ts:207-244`). -/
inductive FetchStep where
  | resolveNull
  | resolveOffer (state : ETradeOfferState)
  | rejectRetries (e : GatewayErr)
  | retryAfter (delay : Nat) (nextAttempts : Nat)
deriving DecidableEq, Repr

/-- The body of the `getOffer` callback in `fetchOffer`
(`Trades.ts:207-244`): increment `attempts`; a "no match" error
resolves `null`; more than 5 attempts rejects with the last error; a
non-session error retries after `exponentialBackoff(attempts)`; a
session error forces a session refresh and retries after
`err !== null ? 0 : exponentialBackoff(attempts)` where `err` is the
refresh outcome (`refreshErr = true` models `err !== null`, i.e. a
failed refresh); a successful `getOffer` resolves `null` unless the
offer is `Active`. -/
def fetchOfferCallback (attempts : Nat) (res : GetOfferResult) (refreshErr : Bool) : FetchStep :=
  let a := attempts + 1
  match res with
  | GetOfferResult.err e =>
    if e = GatewayErr.noMatch then FetchStep.resolveNull
    else if a > 5 then FetchStep.rejectRetries e
    else if e ≠ GatewayErr.notLoggedIn then FetchStep.retryAfter (exponentialBackoff a) a
    else FetchStep.retryAfter (if refreshErr then 0 else exponentialBackoff a) a
  | GetOfferResult.ok st =>
    if st ≠ ETradeOfferState.Active then FetchStep.resolveNull
    else FetchStep.resolveOffer st

/-- Final outcome of a whole `fetchOffer` promise chain. -/
inductive RunOutcome where
  | absent
  | offer (state : ETradeOfferState)
  | exhausted (lastErr : GatewayErr)
deriving DecidableEq, Repr

theorem fetchOfferCallback_retry_bound (attempts : Nat) (res : GetOfferResult)
    (refreshErr : Bool) (d a : Nat)
    (h : fetchOfferCallback attempts res refreshErr = FetchStep.retryAfter d a) :
    a = attempts + 1 ∧ attempts + 1 ≤ 5 := by
  cases res with
  | err e =>
    simp only [fetchOfferCallback] at h
    split at h
    · exact absurd h (by simp)
    · split at h
      · exact absurd h (by simp)
      · split at h
        · refine ⟨?_, ?_⟩ <;> [exact (FetchStep.retryAfter.injEq _ _ _ _).mp h |>.2.symm; omega]
        · refine ⟨?_, ?_⟩ <;> [exact (FetchStep.retryAfter.injEq _ _ _ _).mp h |>.2.symm; omega]
  | ok st =>
    simp only [fetchOfferCallback] at h
    split at h <;> exact absurd h (by simp)

/-- The whole `fetchOffer` retry recursion (`Trades.ts:205-246`),
driven by an oracle giving the Gateway's answer to the `calls`-th
`getOffer` call and by the outcome of each forced session refresh.
Returns the final outcome together with the total number of `getOffer`
calls made. -/
def runFetch (oracle : Nat → GetOfferResult) (refresh : Nat → Bool) (attempts calls : Nat) :
    RunOutcome × Nat :=
  match h : fetchOfferCallback attempts (oracle calls) (refresh calls) with
  | FetchStep.resolveNull => (RunOutcome.absent, calls + 1)
  | FetchStep.resolveOffer st => (RunOutcome.offer st, calls + 1)
  | FetchStep.rejectRetries e => (RunOutcome.exhausted e, calls + 1)
  | FetchStep.retryAfter _ a => runFetch oracle refresh a (calls + 1)
termination_by 6 - attempts
decreasing_by
  have := fetchOfferCallback_retry_bound attempts (oracle calls) (refresh calls) _ _ h
  omega

/-- A Gateway stub that fails with a transient error on the first `n`
`getOffer` calls and then answers with an Active offer. -/
def gatewayN (n : Nat) (k : Nat) : GetOfferResult :=
  if k < n then GetOfferResult.err GatewayErr.transient else GetOfferResult.ok ETradeOfferState.Active

theorem split_singleton {α : Type} {l pre post : List α} {t : α}
    (hlen : l.length ≤ 1) (h : l = pre ++ t :: post) : pre = [] ∧ post = [] ∧ l = [t] := by
  subst h
  cases pre with
  | nil =>
    cases post with
    | nil => exact ⟨rfl, rfl, rfl⟩
    | cons b bs => simp at hlen
  | cons a as =>
    exfalso
    rw [List.length_append, List.length_cons, List.length_cons] at hlen
    omega

theorem qinv_init : QInv initQState := by
  refine ⟨fun _ => rfl, ?_, ?_, ?_, ?_⟩ <;> simp [initQState]

theorem qinv_processNextOffer {s : QState} (h : QInv s) : QInv (processNextOffer s) := by
  obtain ⟨h1, h2, h3, h4, h5⟩ := h
  unfold processNextOffer
  by_cases hc : s.processingOffer = true ∨ s.receivedOffers = []
  · rw [if_pos hc]
    exact ⟨h1, h2, h3, h4, h5⟩
  · push_neg at hc
    obtain ⟨hp, hq⟩ := hc
    have hpf : s.processingOffer = false := by
      cases hb : s.processingOffer
      · rfl
      · exact absurd hb hp
    have ht : s.tasks = [] := h1 hpf
    rw [if_neg (not_or.mpr ⟨hp, hq⟩)]
    refine ⟨?_, ?_, ?_, ?_, ?_⟩
    · intro hcontra; simp at hcontra
    · simp [ht]
    · intro _; exact hq
    · intro t htmem
      simp only [ht, List.nil_append, List.mem_singleton] at htmem
      subst htmem
      cases hql : s.receivedOffers with
      | nil => exact absurd hql hq
      | cons a as => simp [hql, QTask.offerId]
    · exact h5

theorem qinv_finishProcessingOffer {s : QState} (offerId : Nat)
    (ht : s.tasks = []) (hnd : (s.receivedOffers.erase offerId).Nodup) :
    QInv (finishProcessingOffer s offerId) := by
  apply qinv_processNextOffer
  refine ⟨fun _ => ht, ?_, ?_, ?_, ?_⟩
  · simp [ht]
  · intro hcontra; simp at hcontra
  · intro t htmem; rw [ht] at htmem; simp at htmem
  · simpa [dequeueOffer] using hnd

theorem head_decomp {l : List Nat} {n : Nat} (h : l.head? = some n) :
    ∃ rest, l = n :: rest := by
  cases l with
  | nil => simp at h
  | cons a as =>
    simp only [List.head?_cons, Option.some.injEq] at h
    exact ⟨as, by rw [h]⟩

theorem processingOffer_true_of_tasks_ne {s : QState}
    (h1 : s.processingOffer = false → s.tasks = []) (ht : s.tasks ≠ []) :
    s.processingOffer = true := by
  cases hb : s.processingOffer
  · exact absurd (h1 hb) ht
  · rfl

theorem qinv_enqueueOffer {s : QState} (offer : Offer) (h : QInv s) :
    QInv (enqueueOffer s offer) := by
  obtain ⟨h1, h2, h3, h4, h5⟩ := h
  unfold enqueueOffer
  by_cases hmem : offer.id ∈ s.receivedOffers
  · rw [if_pos hmem]
    exact ⟨h1, h2, h3, h4, h5⟩
  · rw [if_neg hmem]
    by_cases hlen : (s.receivedOffers ++ [offer.id]).length = 1
    · rw [if_pos hlen]
      have hq : s.receivedOffers = [] := by
        cases hql : s.receivedOffers with
        | nil => rfl
        | cons a as =>
          rw [hql, List.length_append, List.length_cons] at hlen
          simp at hlen
      have hpf : s.processingOffer = false := by
        cases hb : s.processingOffer
        · rfl
        · exact absurd hq (h3 hb)
      have ht : s.tasks = [] := h1 hpf
      refine ⟨?_, ?_, ?_, ?_, ?_⟩
      · intro hcontra; simp at hcontra
      · simp [ht]
      · intro _; simp [hq]
      · intro t htmem
        simp only [ht, List.nil_append, List.mem_singleton] at htmem
        subst htmem
        simp [hq, QTask.offerId]
      · simp [hq]
    · rw [if_neg hlen]
      apply qinv_processNextOffer
      have hq : s.receivedOffers ≠ [] := by
        intro hql
        rw [hql] at hlen
        simp at hlen
      refine ⟨h1, h2, ?_, ?_, ?_⟩
      · intro _
        simp
      · intro t htmem
        have := h4 t htmem
        cases hql : s.receivedOffers with
        | nil => exact absurd hql hq
        | cons a as =>
          rw [hql] at this
          simpa using this
      · exact (List.nodup_append).mpr ⟨h5, List.nodup_singleton _, by
          intro a ha hb
          simp only [List.mem_singleton] at hb
          subst hb
          exact hmem ha⟩

theorem qinv_step {s s' : QState} (h : QInv s) (hs : QStep s s') : QInv s' := by
  obtain ⟨h1, h2, h3, h4, h5⟩ := h
  cases hs with
  | enqueue offer => exact qinv_enqueueOffer offer ⟨h1, h2, h3, h4, h5⟩
  | fetchFailed id pre post htask =>
    obtain ⟨hpre, hpost, hone⟩ := split_singleton h2 htask
    subst hpre; subst hpost
    have hhead : s.receivedOffers.head? = some id :=
      h4 (QTask.fetching id) (by rw [hone]; simp)
    obtain ⟨rest, hq⟩ := head_decomp hhead
    unfold onFetchFailed
    by_cases hlen : ({ s with tasks := ([] : List QTask) ++ [] } : QState).receivedOffers.length ≠ 1
    · rw [if_pos hlen]
      apply qinv_finishProcessingOffer
      · rfl
      · show ((s.receivedOffers ++ [id]).erase id).Nodup
        rw [hq]
        rw [List.cons_append, List.erase_cons_head]
        have hnd := h5
        rw [hq, List.nodup_cons] at hnd
        obtain ⟨hnotin, hrest⟩ := hnd
        exact (List.nodup_append).mpr ⟨hrest, List.nodup_singleton _, by
          intro a ha hb
          simp only [List.mem_singleton] at hb
          subst hb
          exact hnotin ha⟩
    · rw [if_neg hlen]
      apply qinv_finishProcessingOffer
      · rfl
      · show ((s.receivedOffers).erase id).Nodup
        rw [hq, List.erase_cons_head]
        have hnd := h5
        rw [hq, List.nodup_cons] at hnd
        exact hnd.2
  | fetchAbsent id pre post htask =>
    obtain ⟨hpre, hpost, hone⟩ := split_singleton h2 htask
    subst hpre; subst hpost
    have hhead : s.receivedOffers.head? = some id :=
      h4 (QTask.fetching id) (by rw [hone]; simp)
    obtain ⟨rest, hq⟩ := head_decomp hhead
    apply qinv_finishProcessingOffer
    · rfl
    · show ((s.receivedOffers).erase id).Nodup
      rw [hq, List.erase_cons_head]
      have hnd := h5
      rw [hq, List.nodup_cons] at hnd
      exact hnd.2
  | fetchActive id offer pre post htask hid hst =>
    obtain ⟨hpre, hpost, hone⟩ := split_singleton h2 htask
    subst hpre; subst hpost
    have hproc : s.processingOffer = true :=
      processingOffer_true_of_tasks_ne h1 (by rw [hone]; simp)
    have hhead : s.receivedOffers.head? = some id :=
      h4 (QTask.fetching id) (by rw [hone]; simp)
    refine ⟨?_, ?_, ?_, ?_, ?_⟩
    · intro hcontra
      rw [hproc] at hcontra
      simp at hcontra
    · simp
    · intro _; exact h3 hproc
    · intro t htmem
      simp only [List.nil_append, List.mem_singleton] at htmem
      subst htmem
      show s.receivedOffers.head? = some (QTask.handling offer).offerId
      rw [hhead]
      simp [QTask.offerId, hid]
    · exact h5
  | handlerDone offer pre post htask =>
    obtain ⟨hpre, hpost, hone⟩ := split_singleton h2 htask
    subst hpre; subst hpost
    have hproc : s.processingOffer = true :=
      processingOffer_true_of_tasks_ne h1 (by rw [hone]; simp)
    have hhead : s.receivedOffers.head? = some (QTask.handling offer).offerId :=
      h4 (QTask.handling offer) (by rw [hone]; simp)
    refine ⟨?_, ?_, ?_, ?_, ?_⟩
    · intro hcontra
      rw [hproc] at hcontra
      simp at hcontra
    · simp
    · intro _; exact h3 hproc
    · intro t htmem
      simp only [List.nil_append, List.mem_singleton] at htmem
      subst htmem
      exact hhead
    · exact h5
  | handlerFailed offer pre post htask =>
    obtain ⟨hpre, hpost, hone⟩ := split_singleton h2 htask
    subst hpre; subst hpost
    refine ⟨fun _ => rfl, by simp, ?_, ?_, h5⟩
    · intro hp; exact h3 hp
    · intro t htmem; simp at htmem
  | actionOk offer pre post htask =>
    obtain ⟨hpre, hpost, hone⟩ := split_singleton h2 htask
    subst hpre; subst hpost
    have hhead : s.receivedOffers.head? = some offer.id :=
      h4 (QTask.acting offer) (by rw [hone]; simp)
    obtain ⟨rest, hq⟩ := head_decomp hhead
    apply qinv_finishProcessingOffer
    · rfl
    · show ((s.receivedOffers).erase offer.id).Nodup
      rw [hq, List.erase_cons_head]
      have hnd := h5
      rw [hq, List.nodup_cons] at hnd
      exact hnd.2
  | actionFailed offer pre post htask =>
    obtain ⟨hpre, hpost, hone⟩ := split_singleton h2 htask
    subst hpre; subst hpost
    refine ⟨fun _ => rfl, by simp, ?_, ?_, h5⟩
    · intro hp; exact h3 hp
    · intro t htmem; simp at htmem

theorem qinv_reachable {s : QState} (h : QReachable s) : QInv s := by
  induction h with
  | init => exact qinv_init
  | step _ hstep ih => exact qinv_step ih hstep

theorem runFetch_transient_retry (oracle : Nat → GetOfferResult) (refresh : Nat → Bool)
    (attempts calls : Nat) (ho : oracle calls = GetOfferResult.err GatewayErr.transient)
    (ha : attempts + 1 ≤ 5) :
    runFetch oracle refresh attempts calls = runFetch oracle refresh (attempts + 1) (calls + 1) := by
  rw [runFetch, ho]
  simp only [fetchOfferCallback]
  rw [if_neg (by decide), if_neg (by omega), if_pos (by decide)]

theorem runFetch_transient_reject (oracle : Nat → GetOfferResult) (refresh : Nat → Bool)
    (attempts calls : Nat) (ho : oracle calls = GetOfferResult.err GatewayErr.transient)
    (ha : attempts + 1 > 5) :
    runFetch oracle refresh attempts calls = (RunOutcome.exhausted GatewayErr.transient, calls + 1) := by
  rw [runFetch, ho]
  simp only [fetchOfferCallback]
  rw [if_neg (by decide), if_pos (by omega)]

/-- A sample incoming offer used in concrete traces. -/
def offerOne : Offer :=
  { id := 1, state := ETradeOfferState.Active, isOurOffer := false, itemsToGive := [] }

/-- A second sample incoming offer used in concrete traces. -/
def offerTwo : Offer :=
  { id := 2, state := ETradeOfferState.Active, isOurOffer := false, itemsToGive := [] }

theorem onFetchFailed_single_entry (id : Nat) :
    onFetchFailed { receivedOffers := [id], processingOffer := true, tasks := [] } id =
      { receivedOffers := [], processingOffer := false, tasks := [] } := by
  unfold onFetchFailed
  rw [if_neg (by simp)]
  unfold finishProcessingOffer dequeueOffer
  simp [processNextOffer, List.erase_cons_head]

theorem onFetchFailed_requeues (id r : Nat) (rs : List Nat) :
    onFetchFailed { receivedOffers := id :: r :: rs, processingOffer := true, tasks := [] } id =
      { receivedOffers := (r :: rs) ++ [id], processingOffer := true,
        tasks := [QTask.fetching r] } := by
  unfold onFetchFailed
  rw [if_pos (by simp)]
  unfold finishProcessingOffer dequeueOffer
  rw [List.cons_append, List.erase_cons_head]
  unfold processNextOffer
  rw [if_neg (by simp)]
  simp [List.headI]

/-- C1, counterexample: the single-entry retry-exhaustion state (queue
`[2]`, a fetch for id 2 pending) is reachable, and on retry exhaustion
the code removes id 2 from the queue entirely — the queue becomes empty
and the id is neither kept at the front nor requeued, contradicting the
claim that the failed id remains at the front and is never dropped. -/
theorem claimC1_counterexample :
    QReachable { receivedOffers := [2], processingOffer := true, tasks := [QTask.fetching 2] } ∧
    onFetchFailed { receivedOffers := [2], processingOffer := true, tasks := [] } 2 =
      { receivedOffers := [], processingOffer := false, tasks := [] } := by
  refine ⟨?_, by decide⟩
  have h1 : QReachable (enqueueOffer initQState offerOne) :=
    QReachable.step QReachable.init (QStep.enqueue _ offerOne)
  have e1 : enqueueOffer initQState offerOne =
      { receivedOffers := [1], processingOffer := true, tasks := [QTask.handling offerOne] } := by
    decide
  rw [e1] at h1
  have h2 : QReachable (enqueueOffer
      { receivedOffers := [1], processingOffer := true, tasks := [QTask.handling offerOne] }
      offerTwo) :=
    QReachable.step h1 (QStep.enqueue _ offerTwo)
  have e2 : enqueueOffer
      { receivedOffers := [1], processingOffer := true, tasks := [QTask.handling offerOne] }
      offerTwo =
      { receivedOffers := [1, 2], processingOffer := true, tasks := [QTask.handling offerOne] } := by
    decide
  rw [e2] at h2
  have h3 : QReachable
      { receivedOffers := [1, 2], processingOffer := true, tasks := [QTask.acting offerOne] } := by
    have h := QReachable.step h2 (QStep.handlerDone _ offerOne [] [] rfl)
    simpa using h
  have h4 : QReachable (finishProcessingOffer
      { receivedOffers := [1, 2], processingOffer := true, tasks := [] } offerOne.id) :=
    QReachable.step h3 (QStep.actionOk _ offerOne [] [] rfl)
  have e4 : finishProcessingOffer
      { receivedOffers := [1, 2], processingOffer := true, tasks := ([] : List QTask) }
      offerOne.id =
      { receivedOffers := [2], processingOffer := true, tasks := [QTask.fetching 2] } := by
    decide
  rw [e4] at h4
  exact h4

/-- C1, amended: when fetching the front offer id exhausts its retries
and the queue holds exactly one entry, that id is dequeued and dropped —
the queue becomes empty, the processing flag clears and the id is not
retried; only when the queue holds at least two entries is the failed
id requeued to the tail (surviving the subsequent dequeue of its front
occurrence) and fetched again on a later pass. -/
theorem claimC1_amended_failure_handling (id r : Nat) (rs : List Nat) :
    onFetchFailed { receivedOffers := [id], processingOffer := true, tasks := [] } id =
      { receivedOffers := [], processingOffer := false, tasks := [] } ∧
    onFetchFailed { receivedOffers := id :: r :: rs, processingOffer := true, tasks := [] } id =
      { receivedOffers := (r :: rs) ++ [id], processingOffer := true,
        tasks := [QTask.fetching r] } :=
  ⟨onFetchFailed_single_entry id, onFetchFailed_requeues id r rs⟩

/-- C2: in every reachable state at most one offer is in flight — at
most one pending fetch/decision/action task exists, and none exists at
all while the processing flag is clear. -/
theorem claimC2_at_most_one_in_flight (s : QState) (h : QReachable s) :
    s.tasks.length ≤ 1 ∧ (s.processingOffer = false → s.tasks = []) := by
  obtain ⟨h1, h2, _, _, _⟩ := qinv_reachable h
  exact ⟨h2, h1⟩

/-- C2, witness: the claim instantiated at the reachable state produced
by a single enqueue. -/
theorem claimC2_witness :
    (enqueueOffer initQState offerOne).tasks.length ≤ 1 ∧
    ((enqueueOffer initQState offerOne).processingOffer = false →
      (enqueueOffer initQState offerOne).tasks = []) :=
  claimC2_at_most_one_in_flight _ (QReachable.step QReachable.init (QStep.enqueue _ offerOne))

/-- C5: no reachable queue ever holds a duplicate offer id, and
enqueueing an id already present leaves the whole state unchanged — no
second copy is appended and no processing is started. -/
theorem claimC5_no_duplicate_ids :
    (∀ s : QState, QReachable s → s.receivedOffers.Nodup) ∧
    (∀ (s : QState) (offer : Offer), offer.id ∈ s.receivedOffers → enqueueOffer s offer = s) := by
  constructor
  · intro s h
    exact (qinv_reachable h).2.2.2.2
  · intro s offer hmem
    unfold enqueueOffer
    rw [if_pos hmem]

/-- C5, witness: the claim instantiated at the state produced by a
single enqueue, and a duplicate enqueue of the same offer. -/
theorem claimC5_witness :
    (enqueueOffer initQState offerOne).receivedOffers.Nodup ∧
    enqueueOffer (enqueueOffer initQState offerOne) offerOne = enqueueOffer initQState offerOne :=
  ⟨claimC5_no_duplicate_ids.1 _ (QReachable.step QReachable.init (QStep.enqueue _ offerOne)),
   claimC5_no_duplicate_ids.2 _ offerOne (by decide)⟩

/-- C6: with queue `[o1, o2]` and the fetch of `o1` exhausting its
retries, `o1` is pushed to the tail and its front occurrence dequeued,
leaving `[o2, o1]` with a fetch of `o2` started; when `o2` later
finishes, the queue becomes `[o1]` and a fetch of `o1` is started — the
problematic offer yields and is retried afterwards. -/
theorem claimC6_requeue_to_tail (o1 o2 : Nat) :
    onFetchFailed { receivedOffers := [o1, o2], processingOffer := true, tasks := [] } o1 =
      { receivedOffers := [o2, o1], processingOffer := true, tasks := [QTask.fetching o2] } ∧
    finishProcessingOffer { receivedOffers := [o2, o1], processingOffer := true, tasks := [] } o2 =
      { receivedOffers := [o1], processingOffer := true, tasks := [QTask.fetching o1] } := by
  constructor
  · simpa using onFetchFailed_requeues o1 o2 []
  · unfold finishProcessingOffer dequeueOffer
    rw [List.erase_cons_head]
    unfold processNextOffer
    rw [if_neg (by simp)]
    simp

/-- C10: an enqueue into an empty queue hands the notification's offer
object directly to the handler (a handling task), whatever its state —
no fetch task is created, so none of the fetch contract runs for it;
and `processNextOffer` only ever creates a fetch task for the id at the
front of a non-empty queue while the processing flag is clear. -/
theorem claimC10_first_entry_bypasses_fetcher :
    (∀ (s : QState) (offer : Offer), s.receivedOffers = [] →
      enqueueOffer s offer =
        { receivedOffers := [offer.id], processingOffer := true,
          tasks := s.tasks ++ [QTask.handling offer] }) ∧
    (∀ (s : QState) (id : Nat), QTask.fetching id ∈ (processNextOffer s).tasks →
      QTask.fetching id ∈ s.tasks ∨
        (s.processingOffer = false ∧ s.receivedOffers.head? = some id)) := by
  constructor
  · intro s offer hq
    simp [enqueueOffer, hq]
  · intro s id hmem
    unfold processNextOffer at hmem
    by_cases hc : s.processingOffer = true ∨ s.receivedOffers = []
    · rw [if_pos hc] at hmem
      exact Or.inl hmem
    · rw [if_neg hc] at hmem
      push_neg at hc
      simp only [List.mem_append, List.mem_singleton] at hmem
      rcases hmem with hmem | hmem
      · exact Or.inl hmem
      · right
        simp only [QTask.fetching.injEq] at hmem
        have hpf : s.processingOffer = false := by
          cases hb : s.processingOffer
          · rfl
          · exact absurd hb hc.1
        refine ⟨hpf, ?_⟩
        cases hql : s.receivedOffers with
        | nil => exact absurd hql hc.2
        | cons a as =>
          rw [hql] at hmem
          simp only [List.headI] at hmem
          simp [hmem]

/-- C10, witness: the claim instantiated at an empty-queue enqueue and
at a concrete `processNextOffer` start. -/
theorem claimC10_witness :
    enqueueOffer initQState offerOne =
      { receivedOffers := [offerOne.id], processingOffer := true,
        tasks := initQState.tasks ++ [QTask.handling offerOne] } ∧
    (QTask.fetching 2 ∈
        ({ receivedOffers := [2], processingOffer := false, tasks := [] } : QState).tasks ∨
      (({ receivedOffers := [2], processingOffer := false, tasks := [] } : QState).processingOffer
          = false ∧
        ({ receivedOffers := [2], processingOffer := false,
            tasks := ([] : List QTask) } : QState).receivedOffers.head? = some 2)) :=
  ⟨claimC10_first_entry_bypasses_fetcher.1 initQState offerOne rfl,
   claimC10_first_entry_bypasses_fetcher.2
     { receivedOffers := [2], processingOffer := false, tasks := [] } 2 (by decide)⟩

/-- C3: evidence for the inverted session-refresh wait.  The source
computes the retry delay as `err !== null ? 0 : exponentialBackoff(attempts)`
(`Trades.ts:230`), so when the forced refresh succeeds (`refreshErr =
false`) the code waits a non-zero exponential backoff, and when the
refresh fails it waits 0 — exactly the opposite of the claim (and of the
source's own comment on the line above). -/
theorem claimC3_session_refresh_delay_inverted :
    fetchOfferCallback 0 (GetOfferResult.err GatewayErr.notLoggedIn) false =
      FetchStep.retryAfter (exponentialBackoff 1) 1 ∧
    exponentialBackoff 1 ≠ 0 ∧
    fetchOfferCallback 0 (GetOfferResult.err GatewayErr.notLoggedIn) true =
      FetchStep.retryAfter 0 1 :=
  ⟨rfl, by decide, rfl⟩

/-- C4: against a Gateway stub failing with a transient error on the
first N calls and then answering an Active offer, `fetchOffer` resolves
the offer after exactly N+1 `getOffer` calls when N ≤ 5, and rejects
with the retries-exhausted error carrying the last Gateway error (after
6 calls) when N > 5. -/
theorem claimC4_fetch_retry_counts (N : Nat) :
    (N ≤ 5 → runFetch (gatewayN N) (fun _ => false) 0 0 =
      (RunOutcome.offer ETradeOfferState.Active, N + 1)) ∧
    (5 < N → runFetch (gatewayN N) (fun _ => false) 0 0 =
      (RunOutcome.exhausted GatewayErr.transient, 6)) := by
  constructor
  · intro h
    interval_cases N <;> simp [runFetch, gatewayN, fetchOfferCallback, exponentialBackoff]
  · intro h
    have g : ∀ k, k < 6 → gatewayN N k = GetOfferResult.err GatewayErr.transient := by
      intro k hk
      unfold gatewayN
      rw [if_pos (by omega)]
    rw [runFetch_transient_retry _ _ _ _ (g 0 (by omega)) (by omega),
        runFetch_transient_retry _ _ _ _ (g 1 (by omega)) (by omega),
        runFetch_transient_retry _ _ _ _ (g 2 (by omega)) (by omega),
        runFetch_transient_retry _ _ _ _ (g 3 (by omega)) (by omega),
        runFetch_transient_retry _ _ _ _ (g 4 (by omega)) (by omega),
        runFetch_transient_reject _ _ _ _ (g 5 (by omega)) (by omega)]

/-- C4, witness: the claim instantiated at N = 3 and N = 7. -/
theorem claimC4_witness :
    runFetch (gatewayN 3) (fun _ => false) 0 0 =
      (RunOutcome.offer ETradeOfferState.Active, 4) ∧
    runFetch (gatewayN 7) (fun _ => false) 0 0 =
      (RunOutcome.exhausted GatewayErr.transient, 6) :=
  ⟨(claimC4_fetch_retry_counts 3).1 (by omega), (claimC4_fetch_retry_counts 7).2 (by omega)⟩

theorem setItemInTrade_nodup {l : List String} {a : String} (h : l.Nodup) :
    (setItemInTrade l a).Nodup := by
  unfold setItemInTrade
  by_cases hm : a ∈ l
  · rw [if_pos hm]
    exact h
  · rw [if_neg hm]
    exact (List.nodup_append).mpr ⟨h, List.nodup_singleton _, by
      intro x hx hxa
      simp only [List.mem_singleton] at hxa
      subst hxa
      exact hm hx⟩

theorem mem_setItemInTrade_of_mem {l : List String} {a : String} (b : String) (h : a ∈ l) :
    a ∈ setItemInTrade l b := by
  unfold setItemInTrade
  by_cases hm : b ∈ l
  · rw [if_pos hm]
    exact h
  · rw [if_neg hm]
    exact List.mem_append_left _ h

theorem mem_setItemInTrade_self (l : List String) (a : String) : a ∈ setItemInTrade l a := by
  unfold setItemInTrade
  by_cases hm : a ∈ l
  · rw [if_pos hm]
    exact hm
  · rw [if_neg hm]
    exact List.mem_append_right _ (by simp)

theorem foldl_setItemInTrade_nodup (items : List String) :
    ∀ l : List String, l.Nodup → (items.foldl setItemInTrade l).Nodup := by
  induction items with
  | nil => exact fun l h => h
  | cons b bs ih => exact fun l h => ih _ (setItemInTrade_nodup h)

theorem mem_foldl_setItemInTrade_of_mem (items : List String) :
    ∀ (l : List String) (a : String), a ∈ l → a ∈ items.foldl setItemInTrade l := by
  induction items with
  | nil => exact fun l a h => h
  | cons b bs ih => exact fun l a h => ih _ _ (mem_setItemInTrade_of_mem b h)

theorem mem_foldl_setItemInTrade_of_mem_items (items : List String) :
    ∀ (l : List String) (a : String), a ∈ items → a ∈ items.foldl setItemInTrade l := by
  induction items with
  | nil =>
    intro l a h
    simp at h
  | cons b bs ih =>
    intro l a h
    rcases List.mem_cons.mp h with h | h
    · subst h
      exact mem_foldl_setItemInTrade_of_mem bs _ a (mem_setItemInTrade_self l a)
    · exact ih _ a h

theorem not_mem_foldl_unsetItemInTrade_of_not_mem (items : List String) :
    ∀ (l : List String) (a : String), a ∉ l → a ∉ items.foldl unsetItemInTrade l := by
  induction items with
  | nil => exact fun l a h => h
  | cons b bs ih =>
    intro l a h
    apply ih
    intro hmem
    exact h (List.mem_of_mem_erase hmem)

theorem not_mem_foldl_unsetItemInTrade (items : List String) :
    ∀ (l : List String) (a : String), a ∈ items → l.count a ≤ 1 →
      a ∉ items.foldl unsetItemInTrade l := by
  induction items with
  | nil =>
    intro l a h
    simp at h
  | cons b bs ih =>
    intro l a hmem hcount
    by_cases hba : b = a
    · subst hba
      have hgoal : (b :: bs).foldl unsetItemInTrade l = bs.foldl unsetItemInTrade (l.erase b) :=
        rfl
      rw [hgoal]
      apply not_mem_foldl_unsetItemInTrade_of_not_mem bs (l.erase b) b
      intro hin
      have h1 : 0 < (l.erase b).count b := List.count_pos_iff.mpr hin
      have h2 : (l.erase b).count b = l.count b - 1 := List.count_erase_self b l
      omega
    · have hmem' : a ∈ bs := by
        rcases List.mem_cons.mp hmem with h | h
        · exact absurd h.symm hba
        · exact h
      apply ih _ _ hmem'
      calc (unsetItemInTrade l b).count a = (l.erase b).count a := rfl
        _ ≤ l.count a := (List.erase_sublist b l).count_le a
        _ ≤ 1 := hcount

theorem onOfferChanged_itemsInTrade (l : List String) (offer : Offer) (bag : DataBag) (now : Nat) :
    (onOfferChanged l offer bag now).itemsInTrade =
      if offer.state = ETradeOfferState.Active ∨
          offer.state = ETradeOfferState.CreatedNeedsConfirmation then
        offer.itemsToGive.foldl setItemInTrade l
      else
        offer.itemsToGive.foldl unsetItemInTrade l := by
  simp only [onOfferChanged]
  split <;> rfl

/-- Active-family membership test used by `onOfferChanged`
(`Trades.ts:353`). -/
def inActiveFamily (st : ETradeOfferState) : Prop :=
  st = ETradeOfferState.Active ∨ st = ETradeOfferState.CreatedNeedsConfirmation

instance (st : ETradeOfferState) : Decidable (inActiveFamily st) := by
  unfold inActiveFamily
  infer_instance

/-- The reservation list after a sequence of state-change notifications,
each given as (offer, metadata bag, current time), has been processed by
`onOfferChanged`. -/
def runChanges (l : List String) (ns : List (Offer × DataBag × Nat)) : List String :=
  ns.foldl (fun acc n => (onOfferChanged acc n.1 n.2.1 n.2.2).itemsInTrade) l

/-- C7: items reserved while an offer is in the active family are
released exactly once on leaving it.  After any non-empty sequence of
active-family notifications for an offer (each re-reserving its given
items idempotently), a given item is present exactly once in the
Reservation Set, and a single notification moving the offer out of the
active family removes it completely — its count drops from 1 to 0,
independent of how many intermediate active-family transitions
occurred. -/
theorem claimC7_reservation_roundtrip (l0 : List String) (a : String) (items : List String)
    (ns : List (Offer × DataBag × Nat)) (o : Offer) (d : DataBag) (t : Nat)
    (hnd : l0.Nodup) (ha : a ∈ items) (hne : ns ≠ [])
    (hact : ∀ n ∈ ns, inActiveFamily n.1.state ∧ n.1.itemsToGive = items)
    (hleave : ¬ inActiveFamily o.state) (hitems : o.itemsToGive = items) :
    (runChanges l0 ns).count a = 1 ∧
    ((onOfferChanged (runChanges l0 ns) o d t).itemsInTrade).count a = 0 := by
  have main : ∀ (ms : List (Offer × DataBag × Nat)) (l : List String), l.Nodup →
      (∀ n ∈ ms, inActiveFamily n.1.state ∧ n.1.itemsToGive = items) →
      (runChanges l ms).Nodup ∧ (a ∈ l → a ∈ runChanges l ms) ∧
        (ms ≠ [] → a ∈ runChanges l ms) := by
    intro ms
    induction ms with
    | nil =>
      intro l hl _
      exact ⟨hl, fun h => h, fun h => absurd rfl h⟩
    | cons n ms ih =>
      intro l hl hall
      have hn := hall n (List.mem_cons_self n ms)
      have hstep : (onOfferChanged l n.1 n.2.1 n.2.2).itemsInTrade =
          items.foldl setItemInTrade l := by
        have hn1 : n.1.state = ETradeOfferState.Active ∨
            n.1.state = ETradeOfferState.CreatedNeedsConfirmation := hn.1
        rw [onOfferChanged_itemsInTrade, if_pos hn1, hn.2]
      have hrest : ∀ n' ∈ ms, inActiveFamily n'.1.state ∧ n'.1.itemsToGive = items :=
        fun n' h => hall n' (List.mem_cons_of_mem _ h)
      have hrc : runChanges l (n :: ms) =
          runChanges ((onOfferChanged l n.1 n.2.1 n.2.2).itemsInTrade) ms := rfl
      rw [hrc, hstep]
      have hl' : (items.foldl setItemInTrade l).Nodup := foldl_setItemInTrade_nodup items l hl
      obtain ⟨ih1, ih2, _⟩ := ih (items.foldl setItemInTrade l) hl' hrest
      refine ⟨ih1, ?_, ?_⟩
      · intro hal
        exact ih2 (mem_foldl_setItemInTrade_of_mem items l a hal)
      · intro _
        exact ih2 (mem_foldl_setItemInTrade_of_mem_items items l a ha)
  obtain ⟨hm1, _, hm3⟩ := main ns l0 hnd hact
  have hmem : a ∈ runChanges l0 ns := hm3 hne
  have hcount1 : (runChanges l0 ns).count a = 1 := List.count_eq_one_of_mem hm1 hmem
  refine ⟨hcount1, ?_⟩
  have hproj : (onOfferChanged (runChanges l0 ns) o d t).itemsInTrade =
      items.foldl unsetItemInTrade (runChanges l0 ns) := by
    have hleave' : ¬(o.state = ETradeOfferState.Active ∨
        o.state = ETradeOfferState.CreatedNeedsConfirmation) := hleave
    rw [onOfferChanged_itemsInTrade, if_neg hleave', hitems]
  rw [hproj]
  have hnotmem : a ∉ items.foldl unsetItemInTrade (runChanges l0 ns) :=
    not_mem_foldl_unsetItemInTrade items _ a ha (Nat.le_of_eq hcount1)
  exact List.count_eq_zero_of_not_mem hnotmem

/-- A sample active-family state-change notification for the offer that
gives away asset "a1". -/
def activeNotif : Offer :=
  { id := 5, state := ETradeOfferState.Active, isOurOffer := false, itemsToGive := ["a1"] }

/-- The same offer leaving the active family (declined). -/
def leaveNotif : Offer :=
  { id := 5, state := ETradeOfferState.Declined, isOurOffer := false, itemsToGive := ["a1"] }

/-- C7, witness: the round trip instantiated at one active notification
followed by a declined notification for an offer giving away "a1". -/
theorem claimC7_witness :
    (runChanges [] [(activeNotif, ([] : DataBag), 0)]).count "a1" = 1 ∧
    ((onOfferChanged (runChanges [] [(activeNotif, ([] : DataBag), 0)])
        leaveNotif [] 7).itemsInTrade).count "a1" = 0 :=
  claimC7_reservation_roundtrip [] "a1" ["a1"] [(activeNotif, [], 0)] leaveNotif [] 7
    (by simp) (by simp) (by simp) (by decide) (by decide) rfl

/-- C8: when the new state is Accepted or InEscrow, the reactor's event
trace removes every given-away item from the inventory cache, lets the
inventory refresh settle, and only then notifies the handler — every
position at which the handler is notified is strictly after a position
at which the refresh settled. -/
theorem claimC8_notify_after_refresh (l : List String) (offer : Offer) (bag : DataBag) (now : Nat)
    (h : offer.state = ETradeOfferState.Accepted ∨ offer.state = ETradeOfferState.InEscrow) :
    (onOfferChanged l offer bag now).events =
      offer.itemsToGive.map TEvent.removeItem ++ [TEvent.refreshSettled, TEvent.notifyHandler] ∧
    ∀ i, ((onOfferChanged l offer bag now).events).get? i = some TEvent.notifyHandler →
      ∃ j, j < i ∧ ((onOfferChanged l offer bag now).events).get? j =
        some TEvent.refreshSettled := by
  have hev : (onOfferChanged l offer bag now).events =
      offer.itemsToGive.map TEvent.removeItem ++
        [TEvent.refreshSettled, TEvent.notifyHandler] := by
    simp only [onOfferChanged]
    rcases h with h | h <;> rw [h] <;> simp
  refine ⟨hev, ?_⟩
  intro i hi
  rw [hev] at hi
  refine ⟨(offer.itemsToGive.map TEvent.removeItem).length, ?_, ?_⟩
  · by_contra hlt
    push_neg at hlt
    rcases Nat.lt_or_ge i (offer.itemsToGive.map TEvent.removeItem).length with hi2 | hi2
    · rw [List.get?_append hi2] at hi
      have hmem := List.get?_mem hi
      simp [List.mem_map] at hmem
    · have hieq : i = (offer.itemsToGive.map TEvent.removeItem).length :=
        Nat.le_antisymm hlt hi2
      rw [hieq, List.get?_append_right (Nat.le_refl _)] at hi
      simp at hi
  · rw [hev, List.get?_append_right (Nat.le_refl _)]
    simp

/-- A sample offer reported Accepted while giving away asset "x1". -/
def acceptedOffer : Offer :=
  { id := 9, state := ETradeOfferState.Accepted, isOurOffer := false, itemsToGive := ["x1"] }

/-- C8, witness: the event trace for a concrete accepted offer. -/
theorem claimC8_witness :
    (onOfferChanged [] acceptedOffer [] 0).events =
      acceptedOffer.itemsToGive.map TEvent.removeItem ++
        [TEvent.refreshSettled, TEvent.notifyHandler] :=
  (claimC8_notify_after_refresh [] acceptedOffer [] 0 (Or.inl rfl)).1

/-- A sample offer reported Declined with no items, used to exercise the
duration log. -/
def declinedOffer : Offer :=
  { id := 3, state := ETradeOfferState.Declined, isOurOffer := false, itemsToGive := [] }

/-- C9: evidence for the metadata-key typo.  `handlerProcessOffer`
stamps the handling-started time under the key `'handleTimestamp'`
(`Trades.ts:132`), but the reactor computes the duration from the key
`'handleTimeStamp'` (`Trades.ts:374`), which is never written — so even
when the handling-started timestamp is available (here: 1000, with the
finish timestamp 5000), the logged duration is "unknown" instead of the
claimed finish − start = 4000. -/
theorem claimC9_duration_always_unknown :
    dataGet (handlerProcessOfferStamp [] 1000) "handleTimestamp" = some (DataVal.num 1000) ∧
    (onOfferChanged [] declinedOffer (handlerProcessOfferStamp [] 1000) 5000).loggedProcessTime =
      some none ∧
    (onOfferChanged [] declinedOffer (handlerProcessOfferStamp [] 1000) 5000).loggedProcessTime ≠
      some (some 4000) :=
  ⟨rfl, rfl, by decide⟩
